import Mathlib

/-!
# Verification of the nightjar real-time audio engine core

Shallow embedding of the C++ sources under `app/src/main/cpp/` and proofs of
the specification's testable properties.

Conventions of the embedding:
* `size_t` counters are `Nat` values kept below `2 ^ 64`, with wraparound
  subtraction/addition made explicit (`% 2 ^ 64`), matching unsigned
  arithmetic in the source.
* `int32_t` / `int64_t` quantities are `Int` (positions, frame counts);
  overflow of 64-bit frame positions is not reachable in the modelled
  scenarios, so no reduction is applied to them.  C truncating division
  and remainder on `Int` are written `Int.tdiv` / `Int.tmod`.
* `float` samples that are only copied (the SPSC ring buffer) are modelled
  generically over a sample type `α`; `float` samples that are combined
  arithmetically (the mixer, the peak meter) are modelled as real numbers.
* The power-of-two index mask `x & (N - 1)` of the source is written
  `x % N`, which is equal for the power-of-two capacities the source's
  `static_assert` admits (and the stored-counter reduction modulo `2 ^ 64`
  is invisible through `% N` because `N` divides `2 ^ 64`).
-/

namespace Nightjar

/-! ## Constants (`common.h`, `wav_writer.h`, `track_mixer.cpp`) -/

def kSampleRate : Int := 44100

def kChannelCount : Int := 1

def kOutputChannelCount : Nat := 2

def kBitsPerSample : Int := 16

def kBytesPerSample : Int := kBitsPerSample / 8

def kRingBufferCapacity : Nat := 131072

/-- Mono mix scratch-buffer length (`track_mixer.cpp` line 9). -/
def kMaxFramesPerCallback : Int := 2048

/-- `msToFrames` of `common.h` (`int64_t` arithmetic, C division). -/
def msToFrames (ms : Int) : Int := (ms * kSampleRate).tdiv 1000

/-- `framesToMs` of `common.h`. -/
def framesToMs (frames : Int) : Int := (frames * 1000).tdiv kSampleRate

/-- `2 ^ 64`, the modulus of `size_t` arithmetic on the target platform. -/
def W64 : Nat := 2 ^ 64

/-- Unsigned 64-bit subtraction `a - b` as the source computes it on
`size_t` operands (both `< W64`). -/
def wrapSub (a b : Nat) : Nat := (a + W64 - b) % W64

/-! ## SpscRingBuffer (`spsc_ring_buffer.h`)

State of `SpscRingBuffer<N>`: the backing array (a total function on
indices; only indices `< N` are meaningful) and the two monotonically
increasing `size_t` position counters, stored modulo `2 ^ 64`. -/

structure SpscRingBuffer (N : Nat) (α : Type) where
  buffer : Nat → α
  writePos : Nat
  readPos : Nat

/-- The constructor: both counters zero, the backing array zero-filled
(`memset`); the fill value is passed in since `α` is abstract. -/
def SpscRingBuffer.init (N : Nat) {α : Type} (z : α) : SpscRingBuffer N α :=
  { buffer := fun _ => z, writePos := 0, readPos := 0 }

/-- The write loop of `SpscRingBuffer::write`: store `data[i]` at
`buffer[(w + i) & (N - 1)]` for each `i`, in order. -/
def writeSamples {α : Type} (N : Nat) (buf : Nat → α) (w : Nat) :
    List α → (Nat → α)
  | [] => buf
  | x :: xs => writeSamples N (fun j => if j = w % N then x else buf j) (w + 1) xs

/-- The read loop of `SpscRingBuffer::read`: collect `count` samples
starting at `buffer[(r + i) & (N - 1)]`. -/
def readSamples {α : Type} (N : Nat) (buf : Nat → α) (r : Nat) :
    Nat → List α
  | 0 => []
  | count + 1 => buf (r % N) :: readSamples N buf (r + 1) count

/-- `SpscRingBuffer::write(data, count)`: compute the free space
`N - (w - r)` in `size_t` arithmetic, copy `min(count, available)` leading
samples, advance the write counter.  Returns the count written and the new
state. -/
def SpscRingBuffer.write {N : Nat} {α : Type} (s : SpscRingBuffer N α)
    (data : List α) : Nat × SpscRingBuffer N α :=
  let w := s.writePos
  let r := s.readPos
  let available := wrapSub N (wrapSub w r)
  let toWrite := min data.length available
  (toWrite,
    { buffer := writeSamples N s.buffer w (data.take toWrite),
      writePos := (w + toWrite) % W64,
      readPos := r })

/-- `SpscRingBuffer::read(data, count)`: copy `min(count, w - r)` samples
out, advance the read counter.  Returns the samples read and the new
state. -/
def SpscRingBuffer.read {N : Nat} {α : Type} (s : SpscRingBuffer N α)
    (count : Nat) : List α × SpscRingBuffer N α :=
  let r := s.readPos
  let w := s.writePos
  let available := wrapSub w r
  let toRead := min count available
  (readSamples N s.buffer r toRead,
    { buffer := s.buffer,
      writePos := w,
      readPos := (r + toRead) % W64 })

/-- `SpscRingBuffer::availableToRead()`: `writePos - readPos` in `size_t`
arithmetic. -/
def SpscRingBuffer.availableToRead {N : Nat} {α : Type}
    (s : SpscRingBuffer N α) : Nat :=
  wrapSub s.writePos s.readPos

/-- `SpscRingBuffer::reset()`: both counters back to zero. -/
def SpscRingBuffer.reset {N : Nat} {α : Type} (s : SpscRingBuffer N α) :
    SpscRingBuffer N α :=
  { s with writePos := 0, readPos := 0 }

/-- One producer/consumer call against the ring buffer. -/
inductive RingOp (α : Type) where
  | write (data : List α)
  | read (count : Nat)
  | reset

/-- Apply one call to the buffer state (result values discarded). -/
def applyOp {N : Nat} {α : Type} (s : SpscRingBuffer N α) :
    RingOp α → SpscRingBuffer N α
  | .write data => (s.write data).2
  | .read count => (s.read count).2
  | .reset => s.reset

/-- Run a sequence of calls from a given state. -/
def runOps {N : Nat} {α : Type} (s : SpscRingBuffer N α)
    (ops : List (RingOp α)) : SpscRingBuffer N α :=
  ops.foldl applyOp s

/-- The state invariant: counters are stored `size_t` values and the
unsigned difference `writePos - readPos` never exceeds the capacity. -/
def RingInv (N : Nat) {α : Type} (s : SpscRingBuffer N α) : Prop :=
  s.writePos < W64 ∧ s.readPos < W64 ∧ wrapSub s.writePos s.readPos ≤ N

/-! ## AtomicTransport (`atomic_transport.h`) and the playback callback
position logic (`oboe_playback_stream.cpp`, `OboePlaybackStream::onAudioReady`)

The transport is a record of the atomic fields.  The playback callback's
effect on the transport (advance, loop wrap, end-of-timeline stop) is a
pure state transition; the audio it renders is modelled separately with
the mixer. -/

structure Transport where
  playing : Bool
  recording : Bool
  posFrames : Int
  totalFrames : Int
  loopStartFrames : Int
  loopEndFrames : Int
  loopResetCount : Int
deriving DecidableEq

/-- Transport fields at engine start (`atomic_transport.h` initializers). -/
def Transport.start : Transport :=
  { playing := false, recording := false, posFrames := 0, totalFrames := 0,
    loopStartFrames := -1, loopEndFrames := -1, loopResetCount := 0 }

/-- `AtomicTransport::hasLoop()`. -/
def Transport.hasLoop (t : Transport) : Bool :=
  decide (0 ≤ t.loopStartFrames) && decide (0 < t.loopEndFrames)

/-- The advanced position of `OboePlaybackStream::onAudioReady`: the
position after adding the block size and the loop check (`pos` after
lines 89–96 of `oboe_playback_stream.cpp`). -/
def advancePos (t : Transport) (numFrames : Int) : Int :=
  let pos := t.posFrames + numFrames
  if 0 ≤ t.loopStartFrames ∧ t.loopStartFrames < t.loopEndFrames ∧
      t.loopEndFrames ≤ pos then
    t.loopStartFrames
  else pos

/-- The transport transition of `OboePlaybackStream::onAudioReady`: if not
playing, nothing changes (silence is emitted); else the position advances
by the block size, wraps to the loop start when a loop is active and the
advanced position reached or passed the loop end, and — unless overdub
recording is on — playback stops with the position reset to zero when the
position reached or passed the end of the timeline. -/
def onAudioReadyTransport (t : Transport) (numFrames : Int) : Transport :=
  if ¬ t.playing then
    t
  else
    let pos := advancePos t numFrames
    if ¬ t.recording ∧ t.totalFrames ≤ pos then
      { t with playing := false, posFrames := 0 }
    else
      { t with posFrames := pos }

/-- `AudioEngine::pause()` (`audio_engine.cpp` lines 160–165): store
`playing := false`, everything else untouched. -/
def Transport.pause (t : Transport) : Transport :=
  { t with playing := false }

/-! ## OboeRecordingStream (`oboe_recording_stream.cpp`)

The capture-side state that the input callback and the control thread
share: the SPSC ring buffer (float samples, modelled over `ℝ`) and the
session flags. -/

structure RecordingStream where
  ringBuffer : SpscRingBuffer kRingBufferCapacity ℝ
  active : Bool
  pipelineHot : Bool
  writeGateOpen : Bool
  peakAmplitude : ℝ

/-- The peak-amplitude scan of the input callback (lines 150–156): fold of
`if (abs > peak) peak = abs` starting from `0.0f`. -/
noncomputable def computePeak (data : List ℝ) : ℝ :=
  data.foldl (fun peak x => if peak < |x| then |x| else peak) 0

/-- The per-session reset performed by `start(path)` (lines 24–28): ring
buffer counters to zero, hot and gate flags cleared, peak cleared. -/
def RecordingStream.startReset (s : RecordingStream) : RecordingStream :=
  { s with ringBuffer := s.ringBuffer.reset, pipelineHot := false,
           writeGateOpen := false, peakAmplitude := 0 }

/-- `OboeRecordingStream::openWriteGate()` (lines 99–102). -/
def RecordingStream.openWriteGate (s : RecordingStream) : RecordingStream :=
  { s with writeGateOpen := true }

/-- `OboeRecordingStream::onAudioReady` (lines 143–169): compute the peak,
mark the pipeline hot, and push the captured samples into the ring buffer
only when the write gate is open. -/
noncomputable def onAudioReadyRec (s : RecordingStream) (data : List ℝ) :
    RecordingStream :=
  let peak := computePeak data
  let hot := if ¬ s.pipelineHot then true else s.pipelineHot
  if s.writeGateOpen then
    { s with peakAmplitude := peak, pipelineHot := hot,
             ringBuffer := (s.ringBuffer.write data).2 }
  else
    { s with peakAmplitude := peak, pipelineHot := hot }

/-! ## WavTrackSource (`wav_track_source.cpp`)

A source file is a byte list (`Option` for the not-found case).  A
successfully opened source keeps the `int16` PCM payload, its frame count
and the payload's byte offset — mirroring `pcmData_`, `totalFrames_` and
`dataOffset_`. -/

structure WavTrackSource where
  pcm : List Int
  totalFrames : Int
  dataOffset : Int
deriving DecidableEq

/-- Little-endian `int32_t` from four bytes at `offset` (lines 94–97);
out-of-range reads yield 0 bytes (the walk guard keeps real reads in
range). -/
def readLE32 (bytes : List Nat) (offset : Nat) : Int :=
  let v := bytes.getD offset 0 + 256 * bytes.getD (offset + 1) 0 +
    65536 * bytes.getD (offset + 2) 0 + 16777216 * bytes.getD (offset + 3) 0
  if 2 ^ 31 ≤ v then (v : Int) - 2 ^ 32 else (v : Int)

/-- The four bytes at `offset`. -/
def tagAt (bytes : List Nat) (offset : Nat) : List Nat :=
  [bytes.getD offset 0, bytes.getD (offset + 1) 0,
   bytes.getD (offset + 2) 0, bytes.getD (offset + 3) 0]

/-- Reinterpret the payload byte region as little-endian signed 16-bit
samples (the `reinterpret_cast<const int16_t*>` view of line 122). -/
def bytesToSamples : List Nat → List Int
  | b0 :: b1 :: rest =>
    (let v := b0 + 256 * b1
     if 32768 ≤ v then (v : Int) - 65536 else (v : Int)) :: bytesToSamples rest
  | _ => []

/-- The chunk walk of `WavTrackSource::open` (lines 89–109): starting at
offset 12, read each chunk header, stop at the `"data"` tag, else skip
`8 + chunkSize` bytes plus word-alignment padding.  Returns the payload
offset (`offset + 8`) and the declared chunk size.  The fuel bounds the
walk; the source's `while` loop makes no progress guarantee on adversarial
chunk sizes, and a fuel-exhausted walk is reported as "no data chunk". -/
def findDataChunk (bytes : List Nat) (size : Int) :
    Nat → Int → Option (Int × Int)
  | 0, _ => none
  | fuel + 1, offset =>
    if offset + 8 ≤ size then
      let chunkSize := readLE32 bytes (offset.toNat + 4)
      if tagAt bytes offset.toNat = [100, 97, 116, 97] then
        some (offset + 8, chunkSize)
      else
        let offset' := offset + 8 + chunkSize
        let offset'' := if Int.tmod chunkSize 2 ≠ 0 then offset' + 1 else offset'
        findDataChunk bytes size fuel offset''
    else none

/-- `WavTrackSource::open` (lines 48–128) on the file's bytes: fail when
the file is absent (`none`), smaller than 44 bytes, missing the
`"RIFF"`/`"WAVE"` markers, or has no `"data"` chunk; otherwise clamp the
declared payload size to the file, view the payload as `int16` samples and
derive the frame count (`dataSize / (kChannelCount * kBytesPerSample)`). -/
def wavOpen (file : Option (List Nat)) : Option WavTrackSource :=
  match file with
  | none => none
  | some bytes =>
    if bytes.length < 44 then none
    else if ¬ (tagAt bytes 0 = [82, 73, 70, 70] ∧
        tagAt bytes 8 = [87, 65, 86, 69]) then none
    else
      match findDataChunk bytes bytes.length (bytes.length + 1) 12 with
      | none => none
      | some (dataOffset, chunkSize) =>
        let dataSize :=
          if (bytes.length : Int) < dataOffset + chunkSize then
            (bytes.length : Int) - dataOffset
          else chunkSize
        some { pcm := bytesToSamples
                 ((bytes.drop dataOffset.toNat).take dataSize.toNat),
               totalFrames := dataSize.tdiv (kChannelCount * kBytesPerSample),
               dataOffset := dataOffset }

/-- `WavTrackSource::readFrames` (lines 141–155), with the `int16 → float`
conversion over `ℝ`: clamp the request to the end of the data, return the
count read and the contents of the destination buffer as a function.  A
closed source (`pcmData_ == nullptr`) is modelled at the slot level. -/
noncomputable def WavTrackSource.readFrames (s : WavTrackSource)
    (frameOffset numFrames : Int) : Int × (Nat → ℝ) :=
  if s.totalFrames ≤ frameOffset then (0, fun _ => 0)
  else
    let available := s.totalFrames - frameOffset
    let toRead := if numFrames < available then numFrames else available
    (toRead,
      fun i => ((s.pcm.getD (frameOffset + i).toNat 0 : Int) : ℝ) * (1 / 32768))

/-! ## TrackMixer (`track_mixer.h` / `track_mixer.cpp`)

A `TrackSlot` per active track; the active list is a `List TrackSlot`
(the double-buffer publication mechanism is a concurrency device and is
not part of the sequential model — every mutation yields the list the
render callback observes next). -/

structure TrackSlot where
  trackId : Int
  source : Option WavTrackSource
  offsetFrames : Int
  trimStartFrames : Int
  trimEndFrames : Int
  effectiveFrames : Int
  volume : ℝ
  muted : Bool

/-- `TrackMixer::addTrack` (lines 14–52): open the source; on failure
return `false` with the list untouched, else append the new slot. -/
def addTrack (slots : List TrackSlot) (file : Option (List Nat))
    (trackId : Int) (durationMs offsetMs trimStartMs trimEndMs : Int)
    (volume : ℝ) (muted : Bool) : Bool × List TrackSlot :=
  match wavOpen file with
  | none => (false, slots)
  | some source =>
    (true, slots ++
      [{ trackId := trackId, source := some source,
         offsetFrames := msToFrames offsetMs,
         trimStartFrames := msToFrames trimStartMs,
         trimEndFrames := msToFrames trimEndMs,
         effectiveFrames := msToFrames (durationMs - trimStartMs - trimEndMs),
         volume := volume, muted := muted }])

/-- `TrackMixer::removeTrack` (lines 54–69): erase-remove of the slots
whose id matches. -/
def removeTrack (slots : List TrackSlot) (trackId : Int) : List TrackSlot :=
  slots.filter (fun s => ¬ s.trackId = trackId)

/-- `TrackMixer::removeAllTracks` (lines 71–77). -/
def removeAllTracks (_slots : List TrackSlot) : List TrackSlot := []

/-- `TrackMixer::computeTotalFrames` (lines 100–108): running maximum of
`offsetFrames + effectiveFrames` starting from 0. -/
def computeTotalFrames (slots : List TrackSlot) : Int :=
  slots.foldl
    (fun maxEnd slot =>
      let e := slot.offsetFrames + slot.effectiveFrames
      if maxEnd < e then e else maxEnd) 0

/-- The mixing loop of `TrackMixer::renderFrames` (lines 160–165): for
`i < read`, add `monoBuf[i] * vol` into output samples
`(skipOutput + i) * 2` and `(skipOutput + i) * 2 + 1`. -/
noncomputable def mixLoop (mono : Nat → ℝ) (vol : ℝ) (skip : Nat)
    (out : Nat → ℝ) : Nat → (Nat → ℝ)
  | 0 => out
  | k + 1 =>
    let prev := mixLoop mono vol skip out k
    fun j =>
      if j = (skip + k) * kOutputChannelCount ∨
          j = (skip + k) * kOutputChannelCount + 1 then
        prev j + mono k * vol
      else prev j

/-- One track's contribution in `TrackMixer::renderFrames` (lines
121–166): skip muted/closed/silent slots, map the global position to the
local frame, clamp the overlap of this callback with the track, read from
the source and mix. -/
noncomputable def mixSlot (positionFrames framesToProcess : Int)
    (out : Nat → ℝ) (slot : TrackSlot) : Nat → ℝ :=
  if slot.muted then out
  else
    match slot.source with
    | none => out
    | some src =>
      if slot.volume ≤ 0 then out
      else
        let localFrame := positionFrames - slot.offsetFrames
        if slot.effectiveFrames ≤ localFrame ∨
            localFrame + framesToProcess ≤ 0 then out
        else
          let skipOutput : Int := if localFrame < 0 then -localFrame else 0
          let sourceStart : Int :=
            if localFrame < 0 then slot.trimStartFrames
            else slot.trimStartFrames + localFrame
          let readCount0 : Int :=
            if localFrame < 0 then framesToProcess - skipOutput
            else framesToProcess
          let remaining := slot.effectiveFrames - max localFrame 0
          let readCount :=
            if remaining < readCount0 then remaining else readCount0
          if readCount ≤ 0 then out
          else
            let res := src.readFrames sourceStart readCount
            mixLoop res.2 slot.volume skipOutput.toNat out res.1.toNat

/-- `TrackMixer::renderFrames` (lines 110–173): zero the stereo output,
return early on an empty list, mix every slot over at most
`kMaxFramesPerCallback` frames, and soft-clip every output sample of the
block through `tanh`.  The output buffer is a function; samples past the
block are the caller's and stay untouched. -/
noncomputable def renderFrames (slots : List TrackSlot) (output : Nat → ℝ)
    (numFrames positionFrames : Int) : Nat → ℝ :=
  let zeroed : Nat → ℝ := fun i =>
    if (i : Int) < numFrames * (kOutputChannelCount : Int) then 0 else output i
  if slots.isEmpty then zeroed
  else
    let framesToProcess := min numFrames kMaxFramesPerCallback
    let mixed := slots.foldl (mixSlot positionFrames framesToProcess) zeroed
    fun i =>
      if (i : Int) < numFrames * (kOutputChannelCount : Int) then
        Real.tanh (mixed i)
      else mixed i

/-! ## AudioEngine (`audio_engine.cpp`) -/

/-- `AudioEngine::addTrack` (lines 109–122): delegate to the mixer; only
on success refresh the transport's `totalFrames` from
`computeTotalFrames`. -/
def engineAddTrack (slots : List TrackSlot) (t : Transport)
    (file : Option (List Nat)) (trackId : Int)
    (durationMs offsetMs trimStartMs trimEndMs : Int) (volume : ℝ)
    (muted : Bool) : Bool × List TrackSlot × Transport :=
  let res := addTrack slots file trackId durationMs offsetMs trimStartMs
    trimEndMs volume muted
  if res.1 then
    (res.1, res.2, { t with totalFrames := computeTotalFrames res.2 })
  else
    (res.1, res.2, t)

/-! # Theorems -/

lemma W64_pos : 0 < W64 := by norm_num [W64]

lemma ringInv_init (N : Nat) {α : Type} (z : α) :
    RingInv N (SpscRingBuffer.init N z) := by
  refine ⟨W64_pos, W64_pos, ?_⟩
  simp [SpscRingBuffer.init, wrapSub, W64]

lemma ringInv_reset {N : Nat} {α : Type} (s : SpscRingBuffer N α) :
    RingInv N s.reset := by
  refine ⟨W64_pos, W64_pos, ?_⟩
  simp [SpscRingBuffer.reset, wrapSub, W64]

/-- In the invariant region, the free-space computation `N - (w - r)` of
`write` really is the exact free space, and the counter difference after a
write grows by exactly the amount written. -/
lemma wrapSub_write_step {N w r t : Nat} (hN : N < W64) (hw : w < W64)
    (hr : r < W64) (hd : wrapSub w r ≤ N) (ht : t ≤ N - wrapSub w r) :
    wrapSub ((w + t) % W64) r = wrapSub w r + t ∧
      wrapSub N (wrapSub w r) = N - wrapSub w r := by
  unfold wrapSub W64 at *
  omega

/-- The counter difference after a read shrinks by exactly the amount
read. -/
lemma wrapSub_read_step {N w r t : Nat} (hN : N < W64) (hw : w < W64)
    (hr : r < W64) (hd : wrapSub w r ≤ N) (ht : t ≤ wrapSub w r) :
    wrapSub w ((r + t) % W64) = wrapSub w r - t := by
  unfold wrapSub W64 at *
  omega

/-- `write` preserves the invariant. -/
lemma ringInv_write {N : Nat} {α : Type} (hN : N < W64)
    {s : SpscRingBuffer N α} (h : RingInv N s) (data : List α) :
    RingInv N (s.write data).2 := by
  obtain ⟨hw, hr, hd⟩ := h
  have ht : min data.length (wrapSub N (wrapSub s.writePos s.readPos)) ≤
      N - wrapSub s.writePos s.readPos := by
    have := (wrapSub_write_step (t := 0) hN hw hr hd (Nat.zero_le _)).2
    omega
  have hstep := wrapSub_write_step hN hw hr hd ht
  refine ⟨Nat.mod_lt _ W64_pos, hr, ?_⟩
  simp only [SpscRingBuffer.write]
  rw [hstep.1]
  omega

/-- `read` preserves the invariant. -/
lemma ringInv_read {N : Nat} {α : Type} (hN : N < W64)
    {s : SpscRingBuffer N α} (h : RingInv N s) (count : Nat) :
    RingInv N (s.read count).2 := by
  obtain ⟨hw, hr, hd⟩ := h
  have ht : min count (wrapSub s.writePos s.readPos) ≤
      wrapSub s.writePos s.readPos := Nat.min_le_right _ _
  have hstep := wrapSub_read_step hN hw hr hd ht
  refine ⟨hw, Nat.mod_lt _ W64_pos, ?_⟩
  simp only [SpscRingBuffer.read]
  rw [hstep]
  omega

/-- Any sequence of calls from an invariant state preserves the
invariant. -/
lemma ringInv_runOps {N : Nat} {α : Type} (hN : N < W64)
    {s : SpscRingBuffer N α} (h : RingInv N s) (ops : List (RingOp α)) :
    RingInv N (runOps s ops) := by
  induction ops generalizing s with
  | nil => exact h
  | cons op ops ih =>
    cases op with
    | write data => exact ih (ringInv_write hN h data)
    | read count => exact ih (ringInv_read hN h count)
    | reset => exact ih (ringInv_reset s)

/-- `readSamples` returns exactly as many samples as requested. -/
lemma readSamples_length {α : Type} (N : Nat) (buf : Nat → α) (r k : Nat) :
    (readSamples N buf r k).length = k := by
  induction k generalizing r with
  | zero => rfl
  | succ k ih => simp [readSamples, ih]

/-- C1. For every sequence of `write`/`read`/`reset` calls on an
`SpscRingBuffer` of capacity `N` starting from the initial state, the
unsigned counter difference `writePos - readPos` (which is
`availableToRead()`) never exceeds `N`, and a `read(count)` call never
returns more samples than are available (written and not yet consumed). -/
theorem ringBuffer_counter_invariant (N : Nat) (hN : N < W64) (z : Int)
    (ops : List (RingOp Int)) :
    (runOps (SpscRingBuffer.init N z) ops).availableToRead ≤ N ∧
    ∀ count,
      ((runOps (SpscRingBuffer.init N z) ops).read count).1.length ≤
        (runOps (SpscRingBuffer.init N z) ops).availableToRead := by
  have hinv := ringInv_runOps hN (ringInv_init N z) ops
  refine ⟨hinv.2.2, fun count => ?_⟩
  simp only [SpscRingBuffer.read, SpscRingBuffer.availableToRead]
  rw [readSamples_length]
  exact Nat.min_le_right _ _

theorem ringBuffer_counter_invariant_witness :
    (8 : Nat) < W64 ∧
    ((runOps (SpscRingBuffer.init 8 (0 : Int))
        [RingOp.write [1, 2, 3], RingOp.read 2]).availableToRead ≤ 8 ∧
      ∀ count,
        ((runOps (SpscRingBuffer.init 8 (0 : Int))
            [RingOp.write [1, 2, 3], RingOp.read 2]).read count).1.length ≤
          (runOps (SpscRingBuffer.init 8 (0 : Int))
            [RingOp.write [1, 2, 3], RingOp.read 2]).availableToRead) :=
  ⟨by decide, ringBuffer_counter_invariant 8 (by decide) 0 _⟩

/-! ### Exact contents written by `write` (claim C2) -/

/-- Reading a region only looks at the buffer cells of that region. -/
lemma readSamples_congr {α : Type} {N : Nat} {buf buf' : Nat → α}
    {r k : Nat} (h : ∀ i < k, buf ((r + i) % N) = buf' ((r + i) % N)) :
    readSamples N buf r k = readSamples N buf' r k := by
  induction k generalizing r with
  | zero => rfl
  | succ k ih =>
    simp only [readSamples]
    have h0 := h 0 (Nat.succ_pos k)
    simp only [Nat.add_zero] at h0
    rw [h0, ih fun i hi => by
      have := h (i + 1) (by omega)
      simpa [Nat.add_assoc, Nat.add_comm 1 i] using this]

/-- Cells outside the written index range are untouched by the write
loop. -/
lemma writeSamples_outside {α : Type} {N : Nat} {buf : Nat → α}
    {w : Nat} {data : List α} {j : Nat}
    (h : ∀ i < data.length, j ≠ (w + i) % N) :
    writeSamples N buf w data j = buf j := by
  induction data generalizing buf w with
  | nil => rfl
  | cons x xs ih =>
    simp only [writeSamples]
    rw [ih fun i hi => by
      have := h (i + 1) (by simpa using Nat.succ_lt_succ hi)
      simpa [Nat.add_assoc, Nat.add_comm 1 i] using this]
    have h0 := h 0 (by simp)
    simp only [Nat.add_zero] at h0
    simp [h0]

/-- Reading a region splits at any intermediate point. -/
lemma readSamples_append {α : Type} (N : Nat) (buf : Nat → α)
    (r a b : Nat) :
    readSamples N buf r (a + b) =
      readSamples N buf r a ++ readSamples N buf (r + a) b := by
  induction a generalizing r with
  | zero => simp [readSamples]
  | succ a ih =>
    have hab : a + 1 + b = (a + b) + 1 := by omega
    rw [hab]
    simp only [readSamples, List.cons_append]
    rw [ih (r + 1)]
    have : r + 1 + a = r + (a + 1) := by omega
    rw [this]

/-- After the write loop, cell `(w + j) % N` holds `data[j]`, provided
the block fits in the buffer (no self-overwrite). -/
lemma writeSamples_read {α : Type} {N : Nat} {buf : Nat → α} {w : Nat}
    {data : List α} (hlen : data.length ≤ N) (j : Nat)
    (hj : j < data.length) :
    writeSamples N buf w data ((w + j) % N) = data.get ⟨j, hj⟩ := by
  induction data generalizing buf w j with
  | nil => simp at hj
  | cons x xs ih =>
    cases j with
    | zero =>
      simp only [writeSamples, Nat.add_zero, List.get]
      rw [writeSamples_outside]
      · simp
      · intro i hi heq
        have hle : w ≤ w + 1 + i := by omega
        have hdvd : N ∣ (w + 1 + i - w) :=
          (Nat.modEq_iff_dvd' hle).mp heq
        have h1 : w + 1 + i - w = 1 + i := by omega
        rw [h1] at hdvd
        have := Nat.le_of_dvd (by omega) hdvd
        simp only [List.length_cons] at hlen
        omega
    | succ k =>
      have h1 : w + (k + 1) = (w + 1) + k := by omega
      rw [h1]
      simp only [writeSamples]
      rw [ih (by simp at hlen ⊢; omega) k (by simpa using hj)]
      rfl

/-- Two cells of the occupied-plus-written region with distinct logical
offsets map to distinct physical indices. -/
lemma region_indices_ne {N d n i j r : Nat} (hdn : d + n ≤ N)
    (hi : i < d) (hj : j < n) : (r + i) % N ≠ (r + d + j) % N := by
  intro heq
  have hle : r + i ≤ r + d + j := by omega
  have hdvd : N ∣ (r + d + j - (r + i)) := (Nat.modEq_iff_dvd' hle).mp heq
  have h1 : r + d + j - (r + i) = d + j - i := by omega
  rw [h1] at hdvd
  have := Nat.le_of_dvd (by omega) hdvd
  omega

/-- The physical index the producer writes at offset `j` equals the
physical index reached by reading `availableToRead + j` cells past the
consumer position: `writePos ≡ readPos + (writePos - readPos) (mod N)`,
using that the capacity divides `2 ^ 64`. -/
lemma write_index_eq {N w r : Nat} (hdvd : N ∣ W64) (hw : w < W64)
    (hr : r < W64) (j : Nat) :
    (w + j) % N = (r + wrapSub w r + j) % N := by
  obtain ⟨m, hm⟩ := hdvd
  set q := (w + W64 - r) / W64 with hq
  have key : w + W64 = W64 * q + wrapSub w r + r := by
    have hdm := Nat.div_add_mod (w + W64 - r) W64
    rw [hq]
    unfold wrapSub
    omega
  have h1 : (w + j) % N = (w + j + N * m) % N :=
    (Nat.add_mul_mod_self_left (w + j) N m).symm
  have h3 : W64 * q = N * (m * q) := by rw [hm]; ring
  have h2 : w + j + N * m = r + wrapSub w r + j + N * (m * q) := by
    calc w + j + N * m = w + W64 + j := by rw [hm]; ring
      _ = W64 * q + wrapSub w r + r + j := by rw [key]
      _ = r + wrapSub w r + j + N * (m * q) := by rw [h3]; ring
  rw [h1, h2, Nat.add_mul_mod_self_left]

/-- Entry `j` of a read region is the cell at physical index
`(r + j) % N`. -/
lemma readSamples_get {α : Type} (N : Nat) (buf : Nat → α) (r k j : Nat)
    (hj : j < k) :
    (readSamples N buf r k).get
        ⟨j, by rw [readSamples_length]; exact hj⟩ =
      buf ((r + j) % N) := by
  induction k generalizing r j with
  | zero => omega
  | succ k ih =>
    cases j with
    | zero => simp [readSamples]
    | succ j =>
      simp only [readSamples, List.get]
      rw [ih (r + 1) j (by omega)]
      congr 2
      omega

/-- C2. `SpscRingBuffer::write` on a state with `f = N - availableToRead`
free slots writes exactly `min (count, f)` leading samples of the data and
returns that number (excess newest samples are dropped); the samples
already buffered and not yet read are unchanged, and the written block
lands after them: reading out the whole occupied region afterwards yields
the old unread samples followed by exactly the accepted prefix of the
data. -/
theorem spscRingBuffer_write_spec {N : Nat} (hN : N < W64) (hdvd : N ∣ W64)
    (s : SpscRingBuffer N Int) (hinv : RingInv N s) (data : List Int) :
    (s.write data).1 = min data.length (N - s.availableToRead) ∧
    readSamples N (s.write data).2.buffer s.readPos
        (s.availableToRead + (s.write data).1) =
      readSamples N s.buffer s.readPos s.availableToRead ++
        data.take (s.write data).1 := by
  obtain ⟨hw, hr, hd⟩ := hinv
  have havail : wrapSub N (wrapSub s.writePos s.readPos) =
      N - wrapSub s.writePos s.readPos :=
    (wrapSub_write_step (t := 0) hN hw hr hd (Nat.zero_le _)).2
  simp only [SpscRingBuffer.write, SpscRingBuffer.availableToRead, havail]
  refine ⟨trivial, ?_⟩
  set d := wrapSub s.writePos s.readPos with hdef
  set n := min data.length (N - d) with hn
  have hnd : n ≤ data.length := Nat.min_le_left _ _
  have hfree : n ≤ N - d := Nat.min_le_right _ _
  have hdn : d + n ≤ N := by omega
  have htake : (data.take n).length = n := by
    rw [List.length_take]
    omega
  rw [readSamples_append]
  have hidx : ∀ j : Nat, (s.writePos + j) % N = (s.readPos + d + j) % N :=
    fun j => write_index_eq hdvd hw hr j
  congr 1
  · -- the already-buffered unread region is untouched
    apply readSamples_congr
    intro i hi
    apply writeSamples_outside
    intro i' hi'
    rw [htake] at hi'
    rw [hidx i']
    exact region_indices_ne hdn hi hi'
  · -- the written region holds exactly the accepted prefix of the data
    apply List.ext_get
    · rw [readSamples_length, htake]
    intro j h1 h2
    rw [readSamples_length] at h1
    have := readSamples_get N
      (writeSamples N s.buffer s.writePos (data.take n)) (s.readPos + d) n j h1
    rw [List.get_of_eq rfl] at this
    rw [this, ← hidx j]
    exact writeSamples_read (by omega) j (by rwa [htake])

theorem spscRingBuffer_write_spec_witness :
    (8 : Nat) < W64 ∧ (8 : Nat) ∣ W64 ∧
    RingInv 8 (SpscRingBuffer.init 8 (0 : Int)) ∧
    (((SpscRingBuffer.init 8 (0 : Int)).write [1, 2, 3]).1 =
        min ([1, 2, 3] : List Int).length
          (8 - (SpscRingBuffer.init 8 (0 : Int)).availableToRead) ∧
      readSamples 8 ((SpscRingBuffer.init 8 (0 : Int)).write [1, 2, 3]).2.buffer
          (SpscRingBuffer.init 8 (0 : Int)).readPos
          ((SpscRingBuffer.init 8 (0 : Int)).availableToRead +
            ((SpscRingBuffer.init 8 (0 : Int)).write [1, 2, 3]).1) =
        readSamples 8 (SpscRingBuffer.init 8 (0 : Int)).buffer
            (SpscRingBuffer.init 8 (0 : Int)).readPos
            (SpscRingBuffer.init 8 (0 : Int)).availableToRead ++
          ([1, 2, 3] : List Int).take
            ((SpscRingBuffer.init 8 (0 : Int)).write [1, 2, 3]).1) :=
  ⟨by decide, ⟨2 ^ 61, by decide⟩, ⟨by decide, by decide, by decide⟩,
    spscRingBuffer_write_spec (by decide) ⟨2 ^ 61, by decide⟩ _
      ⟨by decide, by decide, by decide⟩ _⟩

/-! ### Playback position transitions (claims C3, C4, C5) -/

/-- When playing, the callback either stops at end-of-timeline or commits
the advanced position. -/
lemma onAudioReady_of_playing {t : Transport} (n : Int)
    (hp : t.playing = true) :
    onAudioReadyTransport t n =
      if ¬ t.recording ∧ t.totalFrames ≤ advancePos t n then
        { t with playing := false, posFrames := 0 }
      else
        { t with posFrames := advancePos t n } := by
  unfold onAudioReadyTransport
  rw [if_neg (by simp [hp])]

/-- A loop wrap commits exactly the loop start. -/
lemma advancePos_wrap {t : Transport} {n : Int}
    (hls : 0 ≤ t.loopStartFrames)
    (hle : t.loopStartFrames < t.loopEndFrames)
    (hcross : t.loopEndFrames ≤ t.posFrames + n) :
    advancePos t n = t.loopStartFrames := by
  unfold advancePos
  exact if_pos ⟨hls, hle, hcross⟩

/-- Without a loop wrap the advanced position is `pos + numFrames`. -/
lemma advancePos_no_wrap {t : Transport} {n : Int}
    (h : ¬ (0 ≤ t.loopStartFrames ∧ t.loopStartFrames < t.loopEndFrames ∧
      t.loopEndFrames ≤ t.posFrames + n)) :
    advancePos t n = t.posFrames + n := by
  unfold advancePos
  exact if_neg h

/-- C3 (counterexample). The claim that a loop wrap commits
`loopStart + overshoot` fails: with `loopStart = 1000`, `loopEnd = 3000`,
position `2500` advanced by `1000` (overshoot `500`), the code commits
exactly `1000`, not `1500`. -/
theorem loop_wrap_overshoot_counterexample :
    (onAudioReadyTransport
        ⟨true, false, 2500, 1000000, 1000, 3000, 0⟩ 1000).posFrames ≠
      (1000 : Int) + ((2500 + 1000) - 3000) := by decide

/-- C3 (amended). When playback is on, a loop is active
(`0 ≤ loopStart < loopEnd`) and the advanced position reaches or passes
the loop end, the committed position equals the loop start exactly — the
overshoot is discarded — and hence is never below the loop start nor at or
past the loop end (provided the wrapped position does not itself trigger
the end-of-timeline stop, i.e. overdub is on or `loopStart` lies before
`totalFrames`). -/
theorem playback_loop_wrap (t : Transport) (n : Int)
    (hp : t.playing = true)
    (hls : 0 ≤ t.loopStartFrames)
    (hle : t.loopStartFrames < t.loopEndFrames)
    (hcross : t.loopEndFrames ≤ t.posFrames + n)
    (hsafe : t.recording = true ∨ t.loopStartFrames < t.totalFrames) :
    (onAudioReadyTransport t n).posFrames = t.loopStartFrames ∧
    t.loopStartFrames ≤ (onAudioReadyTransport t n).posFrames ∧
    (onAudioReadyTransport t n).posFrames < t.loopEndFrames := by
  have hwrap : (onAudioReadyTransport t n).posFrames = t.loopStartFrames := by
    rw [onAudioReady_of_playing n hp, advancePos_wrap hls hle hcross]
    rw [if_neg]
    rcases hsafe with h | h
    · rw [h]; simp
    · intro hc; omega
  exact ⟨hwrap, le_of_eq hwrap.symm, hwrap ▸ hle⟩

theorem playback_loop_wrap_witness :
    (⟨true, false, 2500, 1000000, 1000, 3000, 0⟩ : Transport).playing = true ∧
    (0 : Int) ≤ 1000 ∧ (1000 : Int) < 3000 ∧ (3000 : Int) ≤ 2500 + 1000 ∧
    ((onAudioReadyTransport
        ⟨true, false, 2500, 1000000, 1000, 3000, 0⟩ 1000).posFrames = 1000 ∧
      (1000 : Int) ≤ (onAudioReadyTransport
        ⟨true, false, 2500, 1000000, 1000, 3000, 0⟩ 1000).posFrames ∧
      (onAudioReadyTransport
        ⟨true, false, 2500, 1000000, 1000, 3000, 0⟩ 1000).posFrames < 3000) :=
  ⟨by decide, by decide, by decide, by decide,
    playback_loop_wrap _ 1000 (by decide) (by decide) (by decide) (by decide)
      (Or.inr (by decide))⟩

/-- C4. In a playback step with playing on and no loop wrap taken: without
overdub, reaching or passing `totalFrames` stops playback and resets the
position to zero; with overdub on, the advanced position is committed even
past `totalFrames` and playback stays on. -/
theorem playback_end_of_timeline (t : Transport) (n : Int)
    (hp : t.playing = true)
    (hnw : ¬ (0 ≤ t.loopStartFrames ∧ t.loopStartFrames < t.loopEndFrames ∧
      t.loopEndFrames ≤ t.posFrames + n)) :
    (t.recording = false → t.totalFrames ≤ t.posFrames + n →
      (onAudioReadyTransport t n).playing = false ∧
      (onAudioReadyTransport t n).posFrames = 0) ∧
    (t.recording = true →
      (onAudioReadyTransport t n).posFrames = t.posFrames + n ∧
      (onAudioReadyTransport t n).playing = true) := by
  rw [onAudioReady_of_playing n hp, advancePos_no_wrap hnw]
  constructor
  · intro hrec hend
    rw [if_pos ⟨by rw [hrec]; simp, hend⟩]
    exact ⟨rfl, rfl⟩
  · intro hrec
    rw [if_neg (by rw [hrec]; simp)]
    exact ⟨rfl, hp⟩

theorem playback_end_of_timeline_witness :
    (⟨true, false, 900, 1000, -1, -1, 0⟩ : Transport).playing = true ∧
    ¬ ((0 : Int) ≤ -1 ∧ (-1 : Int) < -1 ∧ (-1 : Int) ≤ 900 + 200) ∧
    (((⟨true, false, 900, 1000, -1, -1, 0⟩ : Transport).recording = false →
        (1000 : Int) ≤ 900 + 200 →
        (onAudioReadyTransport
          ⟨true, false, 900, 1000, -1, -1, 0⟩ 200).playing = false ∧
        (onAudioReadyTransport
          ⟨true, false, 900, 1000, -1, -1, 0⟩ 200).posFrames = 0) ∧
      ((⟨true, false, 900, 1000, -1, -1, 0⟩ : Transport).recording = true →
        (onAudioReadyTransport
          ⟨true, false, 900, 1000, -1, -1, 0⟩ 200).posFrames = 900 + 200 ∧
        (onAudioReadyTransport
          ⟨true, false, 900, 1000, -1, -1, 0⟩ 200).playing = true)) :=
  ⟨by decide, by decide,
    playback_end_of_timeline _ 200 (by decide) (by decide)⟩

/-- C5. The code never modifies `loopResetCount`: it is unchanged by every
playback step, including steps that wrap to the loop start — contradicting
the field's own documentation ("incremented by the audio callback each
time the loop resets to loopStart").  The second conjunct exhibits a
concrete wrap step (position becomes the loop start) after which the
counter still holds its old value. -/
theorem loopResetCount_never_incremented :
    (∀ (t : Transport) (n : Int),
      (onAudioReadyTransport t n).loopResetCount = t.loopResetCount) ∧
    ((onAudioReadyTransport
        ⟨true, false, 2000, 500000, 400, 2100, 7⟩ 300).posFrames = 400 ∧
      (onAudioReadyTransport
        ⟨true, false, 2000, 500000, 400, 2100, 7⟩ 300).loopResetCount = 7) := by
  constructor
  · intro t n
    unfold onAudioReadyTransport
    split
    · rfl
    · dsimp only
      split <;> rfl
  · exact ⟨by decide, by decide⟩

/-! ### Capture write gate (claim C6) -/

/-- C6 (counterexample). In the Armed phase (write gate closed) the input
callback does not push its samples into the ring buffer: on a fresh armed
session a callback delivering two samples leaves `availableToRead` at `0`,
whereas pushing them into the ring buffer would leave it at `2`. -/
theorem armed_callback_counterexample :
    (onAudioReadyRec
        ⟨SpscRingBuffer.init kRingBufferCapacity (0 : ℝ), true, false, false, 0⟩
        [0, 0]).ringBuffer.availableToRead = 0 ∧
    ((SpscRingBuffer.init kRingBufferCapacity (0 : ℝ)).write
        [0, 0]).2.availableToRead = 2 := by
  constructor
  · simp only [onAudioReadyRec, SpscRingBuffer.availableToRead,
      SpscRingBuffer.init, if_neg (by simp : ¬ false = true)]
    unfold wrapSub W64
    omega
  · simp only [SpscRingBuffer.write, SpscRingBuffer.availableToRead,
      SpscRingBuffer.init, List.length_cons, List.length_nil]
    unfold wrapSub W64 kRingBufferCapacity
    norm_num

/-- C6 (amended). The write gate decides whether a callback's samples
reach the ring buffer: with the gate closed (Armed phase) the ring buffer
is completely untouched — the samples are read and discarded, only the
peak meter and hot flag update — and after `openWriteGate()` every
subsequent callback pushes its captured block into the ring buffer via
`write` (and the gate stays open, so this holds for all later
callbacks). -/
theorem recording_write_gate (s : RecordingStream) (data data2 : List ℝ) :
    (onAudioReadyRec { s with writeGateOpen := false } data).ringBuffer =
      s.ringBuffer ∧
    (onAudioReadyRec s.openWriteGate data2).ringBuffer =
      (s.ringBuffer.write data2).2 ∧
    (onAudioReadyRec s.openWriteGate data2).writeGateOpen = true := by
  refine ⟨?_, ?_, ?_⟩
  · simp [onAudioReadyRec]
  · simp [onAudioReadyRec, RecordingStream.openWriteGate]
  · simp [onAudioReadyRec, RecordingStream.openWriteGate]

/-! ### Mixer output bounds (claims C7, C9) -/

/-- The hyperbolic tangent is bounded by one in magnitude. -/
lemma abs_tanh_le_one (x : ℝ) : |Real.tanh x| ≤ 1 := by
  rw [Real.tanh_eq_sinh_div_cosh, abs_div, abs_of_pos (Real.cosh_pos x),
    div_le_one (Real.cosh_pos x), abs_le]
  constructor
  · have h1 := Real.cosh_add_sinh x
    have h2 := Real.exp_pos x
    linarith
  · exact (Real.sinh_lt_cosh x).le

/-- C7. Every sample of the block rendered by `TrackMixer::renderFrames`
has magnitude at most `1`, for any tracks, volumes and sample data: the
summed mix passes through the `tanh` soft clip (and an empty track list
yields zeros). -/
theorem renderFrames_soft_clip (slots : List TrackSlot) (out : Nat → ℝ)
    (numFrames positionFrames : Int) (i : Nat)
    (hi : (i : Int) < numFrames * (kOutputChannelCount : Int)) :
    |renderFrames slots out numFrames positionFrames i| ≤ 1 := by
  unfold renderFrames
  by_cases h : slots.isEmpty
  · rw [if_pos h, if_pos hi]
    norm_num
  · rw [if_neg h]
    rw [if_pos hi]
    exact abs_tanh_le_one _

theorem renderFrames_soft_clip_witness :
    ((1 : Nat) : Int) < 4 * (kOutputChannelCount : Int) ∧
    |renderFrames [] (fun _ => 0) 4 0 1| ≤ 1 :=
  ⟨by norm_num [kOutputChannelCount],
    renderFrames_soft_clip [] _ 4 0 1 (by norm_num [kOutputChannelCount])⟩

/-- The mix loop never touches output samples at or past
`(skip + read) * 2`. -/
lemma mixLoop_outside (mono : Nat → ℝ) (vol : ℝ) (skip : Nat)
    (out : Nat → ℝ) (read j : Nat)
    (hj : (skip + read) * kOutputChannelCount ≤ j) :
    mixLoop mono vol skip out read j = out j := by
  induction read with
  | zero => rfl
  | succ k ih =>
    simp only [mixLoop]
    rw [if_neg (by unfold kOutputChannelCount at hj ⊢; omega)]
    exact ih (by unfold kOutputChannelCount at hj ⊢; omega)

/-- `readFrames` reads a nonnegative count, at most the requested one. -/
lemma readFrames_count_le (s : WavTrackSource) (off n : Int) (hn : 0 < n) :
    0 ≤ (s.readFrames off n).1 ∧ (s.readFrames off n).1 ≤ n := by
  unfold WavTrackSource.readFrames
  split
  · exact ⟨le_refl 0, hn.le⟩
  · dsimp only
    split <;> omega

/-- One slot's mix writes only below `framesToProcess * 2`. -/
lemma mixLoop_readFrames_outside (src : WavTrackSource) (vol : ℝ)
    (skip rc ss : Int) (out : Nat → ℝ) (j : Nat) (h0 : 0 ≤ skip)
    (hsum : skip + rc ≤ kMaxFramesPerCallback) (hrc : 0 < rc)
    (hj : 2048 * kOutputChannelCount ≤ j) :
    mixLoop (src.readFrames ss rc).2 vol skip.toNat out
      (src.readFrames ss rc).1.toNat j = out j := by
  have hb := readFrames_count_le src ss rc hrc
  apply mixLoop_outside
  unfold kOutputChannelCount kMaxFramesPerCallback at *
  omega

/-- `mixSlot` leaves output samples at or past `2048 * 2` untouched when
the processed frame count is capped at `kMaxFramesPerCallback`. -/
lemma mixSlot_outside (p fTP : Int) (out : Nat → ℝ) (slot : TrackSlot)
    (j : Nat) (hfp : fTP ≤ kMaxFramesPerCallback)
    (hj : 2048 * kOutputChannelCount ≤ j) :
    mixSlot p fTP out slot j = out j := by
  unfold mixSlot
  by_cases hm : slot.muted = true
  · rw [if_pos hm]
  · rw [if_neg hm]
    cases hs : slot.source with
    | none => rfl
    | some src =>
      dsimp only
      by_cases hv : slot.volume ≤ 0
      · rw [if_pos hv]
      · rw [if_neg hv]
        by_cases hin : slot.effectiveFrames ≤ p - slot.offsetFrames ∨
            p - slot.offsetFrames + fTP ≤ 0
        · rw [if_pos hin]
        · rw [if_neg hin]
          by_cases hneg : p - slot.offsetFrames < 0
          · simp only [if_pos hneg]
            by_cases hclamp : slot.effectiveFrames -
                max (p - slot.offsetFrames) 0 <
                fTP - -(p - slot.offsetFrames)
            · rw [if_pos hclamp]
              by_cases hz : slot.effectiveFrames -
                  max (p - slot.offsetFrames) 0 ≤ 0
              · rw [if_pos hz]
              · rw [if_neg hz]
                exact mixLoop_readFrames_outside src _ _ _ _ out j
                  (by omega) (by simp only [max_def] at hclamp ⊢; omega)
                  (by omega) hj
            · rw [if_neg hclamp]
              by_cases hz : fTP - -(p - slot.offsetFrames) ≤ 0
              · rw [if_pos hz]
              · rw [if_neg hz]
                exact mixLoop_readFrames_outside src _ _ _ _ out j
                  (by omega) (by omega) (by omega) hj
          · simp only [if_neg hneg]
            by_cases hclamp : slot.effectiveFrames -
                max (p - slot.offsetFrames) 0 < fTP
            · rw [if_pos hclamp]
              by_cases hz : slot.effectiveFrames -
                  max (p - slot.offsetFrames) 0 ≤ 0
              · rw [if_pos hz]
              · rw [if_neg hz]
                exact mixLoop_readFrames_outside src _ _ _ _ out j
                  (by omega) (by simp only [max_def] at hclamp ⊢; omega)
                  (by omega) hj
            · rw [if_neg hclamp]
              by_cases hz : fTP ≤ 0
              · rw [if_pos hz]
              · rw [if_neg hz]
                exact mixLoop_readFrames_outside src _ _ _ _ out j
                  (by omega) (by omega) (by omega) hj

/-- Folding the per-slot mix over the list preserves all samples at or
past `2048 * 2`. -/
lemma foldl_mixSlot_outside (p fTP : Int) (slots : List TrackSlot)
    (out : Nat → ℝ) (j : Nat) (hfp : fTP ≤ kMaxFramesPerCallback)
    (hj : 2048 * kOutputChannelCount ≤ j) :
    slots.foldl (mixSlot p fTP) out j = out j := by
  induction slots generalizing out with
  | nil => rfl
  | cons s ss ih =>
    simp only [List.foldl_cons]
    rw [ih _, mixSlot_outside p fTP out s j hfp hj]

/-- C9. In any render call, output frames at indices `2048`
(`kMaxFramesPerCallback`) and beyond — within the requested block — are
always exact silence: the mono scratch buffer caps the frames a track can
contribute at `2048`, the block is zeroed first, and `tanh 0 = 0`. -/
theorem renderFrames_frame_cap (slots : List TrackSlot) (out : Nat → ℝ)
    (numFrames positionFrames : Int) (f c : Nat)
    (hc : c < kOutputChannelCount) (hf : (2048 : Int) ≤ (f : Int))
    (hlt : (f : Int) < numFrames) :
    renderFrames slots out numFrames positionFrames
      (f * kOutputChannelCount + c) = 0 := by
  have hin : ((f * kOutputChannelCount + c : Nat) : Int) <
      numFrames * (kOutputChannelCount : Int) := by
    unfold kOutputChannelCount at *
    push_cast
    omega
  have hge : 2048 * kOutputChannelCount ≤ f * kOutputChannelCount + c := by
    unfold kOutputChannelCount at *
    omega
  unfold renderFrames
  by_cases h : slots.isEmpty
  · rw [if_pos h, if_pos hin]
  · rw [if_neg h]
    rw [if_pos hin,
      foldl_mixSlot_outside _ _ _ _ _ (min_le_right _ _) hge, if_pos hin]
    exact Real.tanh_zero

theorem renderFrames_frame_cap_witness :
    (0 : Nat) < kOutputChannelCount ∧ (2048 : Int) ≤ ((2048 : Nat) : Int) ∧
    ((2048 : Nat) : Int) < 3000 ∧
    renderFrames [] (fun _ => 0) 3000 0 (2048 * kOutputChannelCount + 0) = 0 :=
  ⟨by norm_num [kOutputChannelCount], by norm_num, by norm_num,
    renderFrames_frame_cap [] _ 3000 0 2048 0
      (by norm_num [kOutputChannelCount]) (by norm_num) (by norm_num)⟩

/-! ### Control-surface no-ops (claim C8) -/

/-- C8. `pause()` with playback already paused leaves the transport
unchanged (storing `playing := false` is the only effect of `pause`), and
`removeTrack(id)` for an id not in the active list leaves the track-list
contents unchanged; neither reports an error (both return `Unit` in the
source). -/
theorem pause_removeTrack_noop (t : Transport) (slots : List TrackSlot)
    (id : Int) (hpause : t.playing = false)
    (habsent : ∀ s ∈ slots, s.trackId ≠ id) :
    t.pause = t ∧ removeTrack slots id = slots := by
  constructor
  · cases t
    simp only [Transport.pause]
    simp_all
  · unfold removeTrack
    rw [List.filter_eq_self]
    intro s hs
    simpa using habsent s hs

theorem pause_removeTrack_noop_witness :
    (⟨false, false, 5, 10, -1, -1, 0⟩ : Transport).playing = false ∧
    (∀ s ∈ [(⟨3, none, 0, 0, 0, 0, 1, false⟩ : TrackSlot)], s.trackId ≠ 99) ∧
    ((⟨false, false, 5, 10, -1, -1, 0⟩ : Transport).pause =
        ⟨false, false, 5, 10, -1, -1, 0⟩ ∧
      removeTrack [(⟨3, none, 0, 0, 0, 0, 1, false⟩ : TrackSlot)] 99 =
        [(⟨3, none, 0, 0, 0, 0, 1, false⟩ : TrackSlot)]) :=
  ⟨rfl, by intro s hs; simp at hs; subst hs; decide,
    pause_removeTrack_noop _ _ 99 rfl
      (by intro s hs; simp at hs; subst hs; decide)⟩

/-! ### Failed `addTrack` leaves the engine unchanged (claim C10) -/

/-- C10. When the source file cannot be opened (absent, too small,
malformed header, or no `data` chunk — i.e. `wavOpen` fails), engine-level
`addTrack` returns `false` and changes nothing: the active track list is
the same list, the transport (including `totalFrames`) is untouched, and
`computeTotalFrames` is unchanged. -/
theorem addTrack_fail_unchanged (slots : List TrackSlot) (t : Transport)
    (file : Option (List Nat)) (trackId : Int)
    (durationMs offsetMs trimStartMs trimEndMs : Int) (volume : ℝ)
    (muted : Bool) (hfail : wavOpen file = none) :
    engineAddTrack slots t file trackId durationMs offsetMs trimStartMs
        trimEndMs volume muted = (false, slots, t) ∧
    computeTotalFrames (engineAddTrack slots t file trackId durationMs
        offsetMs trimStartMs trimEndMs volume muted).2.1 =
      computeTotalFrames slots := by
  have hadd : addTrack slots file trackId durationMs offsetMs trimStartMs
      trimEndMs volume muted = (false, slots) := by
    unfold addTrack
    rw [hfail]
  constructor
  · unfold engineAddTrack
    rw [hadd]
    simp
  · unfold engineAddTrack
    rw [hadd]
    simp

theorem addTrack_fail_unchanged_witness :
    wavOpen (some [82, 73, 70, 70]) = none ∧
    (engineAddTrack [] Transport.start (some [82, 73, 70, 70]) 1 1000 0 0 0
        1 false = (false, [], Transport.start) ∧
      computeTotalFrames (engineAddTrack [] Transport.start
          (some [82, 73, 70, 70]) 1 1000 0 0 0 1 false).2.1 =
        computeTotalFrames []) :=
  ⟨by decide, addTrack_fail_unchanged [] Transport.start _ 1 1000 0 0 0 1
    false (by decide)⟩

end Nightjar
